import Mathlib

/-!
Verification of the aiTris move-selection AI (src/ai.js, src/game.js).

The embedding models JavaScript numbers that can arise in the evaluator as
`JsNum` (a rational, `Infinity`, `-Infinity`, or `NaN`): weight objects can
miss keys, and in JavaScript `undefined * n = NaN`, while the search seeds
its running minimum with `Infinity`.  Weight objects are modelled as a
structure of `Option ℚ` fields (`none` = key absent).  Grids are lists of
rows of naturals (0 = empty cell), matching the 24 × 10 board.
-/

/-- A JavaScript number as it can appear in the AI core: a finite value,
positive or negative infinity, or NaN. -/
inductive JsNum where
  | num (q : ℚ)
  | posInf
  | negInf
  | nan
deriving DecidableEq

/-- JavaScript addition on `JsNum` (IEEE semantics for the special values). -/
def JsNum.add : JsNum → JsNum → JsNum
  | nan, _ => nan
  | _, nan => nan
  | num a, num b => num (a + b)
  | num _, posInf => posInf
  | posInf, num _ => posInf
  | num _, negInf => negInf
  | negInf, num _ => negInf
  | posInf, posInf => posInf
  | negInf, negInf => negInf
  | posInf, negInf => nan
  | negInf, posInf => nan

/-- JavaScript multiplication on `JsNum` (IEEE semantics; `±∞ * 0 = NaN`). -/
def JsNum.mul : JsNum → JsNum → JsNum
  | nan, _ => nan
  | _, nan => nan
  | num a, num b => num (a * b)
  | num a, posInf => if a = 0 then nan else if 0 < a then posInf else negInf
  | posInf, num a => if a = 0 then nan else if 0 < a then posInf else negInf
  | num a, negInf => if a = 0 then nan else if 0 < a then negInf else posInf
  | negInf, num a => if a = 0 then nan else if 0 < a then negInf else posInf
  | posInf, posInf => posInf
  | posInf, negInf => negInf
  | negInf, posInf => negInf
  | negInf, negInf => posInf

/-- JavaScript `<` on `JsNum`: any comparison with NaN is false. -/
def JsNum.lt : JsNum → JsNum → Bool
  | nan, _ => false
  | _, nan => false
  | num a, num b => decide (a < b)
  | num _, posInf => true
  | num _, negInf => false
  | posInf, _ => false
  | negInf, negInf => false
  | negInf, _ => true

/-- Whether a `JsNum` is a finite numeric value. -/
def JsNum.isNum : JsNum → Bool
  | num _ => true
  | _ => false

/-- A weight object: each heuristic coefficient may be present or absent,
exactly like a key of a JavaScript object. -/
structure Weights where
  aggregateHeight : Option ℚ := none
  completedLines : Option ℚ := none
  holes : Option ℚ := none
  bumpiness : Option ℚ := none
  lookaheadScore : Option ℚ := none
  centerClog : Option ℚ := none
  holeReduction : Option ℚ := none
  wellClogs : Option ℚ := none
  lineClearBonus : Option ℚ := none
  droughtPenalty : Option ℚ := none
deriving DecidableEq

/-- Reading a possibly missing weight key as a JavaScript number:
a present key is its value, an absent key is `undefined`, which any
arithmetic turns into NaN. -/
def wval : Option ℚ → JsNum
  | some q => JsNum.num q
  | none => JsNum.nan

/-- The names of the weight keys used anywhere in src/ai.js. -/
inductive WeightKey where
  | aggregateHeight
  | completedLines
  | holes
  | bumpiness
  | lookaheadScore
  | centerClog
  | holeReduction
  | wellClogs
  | lineClearBonus
  | droughtPenalty
deriving DecidableEq

/-- Read one key of a weight object. -/
def getW : WeightKey → Weights → Option ℚ
  | .aggregateHeight, w => w.aggregateHeight
  | .completedLines, w => w.completedLines
  | .holes, w => w.holes
  | .bumpiness, w => w.bumpiness
  | .lookaheadScore, w => w.lookaheadScore
  | .centerClog, w => w.centerClog
  | .holeReduction, w => w.holeReduction
  | .wellClogs, w => w.wellClogs
  | .lineClearBonus, w => w.lineClearBonus
  | .droughtPenalty, w => w.droughtPenalty

/-- Overwrite (or delete, with `none`) one key of a weight object. -/
def setW : WeightKey → Option ℚ → Weights → Weights
  | .aggregateHeight, v, w => { w with aggregateHeight := v }
  | .completedLines, v, w => { w with completedLines := v }
  | .holes, v, w => { w with holes := v }
  | .bumpiness, v, w => { w with bumpiness := v }
  | .lookaheadScore, v, w => { w with lookaheadScore := v }
  | .centerClog, v, w => { w with centerClog := v }
  | .holeReduction, v, w => { w with holeReduction := v }
  | .wellClogs, v, w => { w with wellClogs := v }
  | .lineClearBonus, v, w => { w with lineClearBonus := v }
  | .droughtPenalty, v, w => { w with droughtPenalty := v }

/-- src/ai.js BASE_SURVIVAL_WEIGHTS. -/
def BASE_SURVIVAL_WEIGHTS : Weights :=
  { aggregateHeight := some (51 / 100) -- 0.51
    completedLines := some (-(19 / 25)) -- -0.76
    holes := some 1 -- 1.0
    bumpiness := some (9 / 50) -- 0.18
    lookaheadScore := some (4 / 5) -- 0.8
    centerClog := some (4 / 5) -- 0.8
    holeReduction := some (-(5 / 2)) } -- -2.5

/-- src/ai.js BASE_WELL_WEIGHTS. -/
def BASE_WELL_WEIGHTS : Weights :=
  { aggregateHeight := some (2 / 5) -- 0.4
    holes := some 4 -- 4.0
    bumpiness := some (1 / 4) -- 0.25
    wellClogs := some 8 -- 8.0
    lineClearBonus := some (-5) -- -5.0
    droughtPenalty := some (2 / 25) -- 0.08
    lookaheadScore := some (4 / 5) } -- 0.8

/-- The strategy names accepted by the evaluator; anything that is not a
well strategy takes the survival branch in src/ai.js. -/
inductive Strategy where
  | rightWell
  | leftWell
  | survival
deriving DecidableEq

/-- A board: a list of rows, each a list of cells (0 = empty). -/
abbrev Grid := List (List ℕ)

/-- src/ai.js COLS. -/
def COLS : ℕ := 10

/-- src/ai.js GRID_HEIGHT. -/
def GRID_HEIGHT : ℕ := 24

/-- src/ai.js BLANK_ROW. -/
def BLANK_ROW : List ℕ := List.replicate 10 0

/-- src/ai.js DANGER_HEIGHT_THRESHOLD. -/
def DANGER_HEIGHT_THRESHOLD : ℕ := 18

/-- src/ai.js DROUGHT_THRESHOLD. -/
def DROUGHT_THRESHOLD : ℕ := 12

/-- Read `grid[r][c]` for natural indices (0 when out of range, matching
reads of the fixed 24 × 10 board). -/
def cell (grid : Grid) (r c : ℕ) : ℕ := (grid.getD r []).getD c 0

/-- src/ai.js getColumnHeights: for each column, `GRID_HEIGHT - r` for the
first (topmost) occupied row `r`, or 0 for an empty column. -/
def getColumnHeights (grid : Grid) : List ℕ :=
  (List.range 10).map fun c =>
    match (List.range 24).find? (fun r => cell grid r c ≠ 0) with
    | some r => 24 - r
    | none => 0

/-- src/ai.js getAggregateHeight. -/
def getAggregateHeight (heights : List ℕ) : ℕ := heights.sum

/-- src/ai.js getHoles: per column, empty cells strictly below the first
occupied cell; the fold state is (blockFound, holes so far). -/
def getHoles (grid : Grid) : ℕ :=
  ((List.range 10).map fun c =>
    ((List.range 24).foldl
      (fun acc r =>
        if cell grid r c ≠ 0 then (true, acc.2)
        else if acc.1 then (acc.1, acc.2 + 1) else acc)
      ((false : Bool), (0 : ℕ))).2).sum

/-- Distance between two column heights, `Math.abs(heights[i] - heights[i+1])`. -/
def natDist (a b : ℕ) : ℕ := ((a : ℤ) - (b : ℤ)).natAbs

/-- src/ai.js getBumpiness. -/
def getBumpiness (heights : List ℕ) : ℕ :=
  ((List.range (heights.length - 1)).map fun i =>
    natDist (heights.getD i 0) (heights.getD (i + 1) 0)).sum

/-- src/ai.js line 98: the well column of a well strategy. -/
def wellColumnOf (strategy : Strategy) : ℕ :=
  if strategy = .rightWell then 9 else 0

/-- src/ai.js line 99: the neighbor column of a well strategy. -/
def neighborColumnOf (strategy : Strategy) : ℕ :=
  if strategy = .rightWell then 8 else 1

/-- src/ai.js lines 104-110: bumpiness over all adjacent pairs, skipping
the pair at the well (the loop's `continue` contributes 0). -/
def stackBumpiness (strategy : Strategy) (heights : List ℕ) : ℕ :=
  ((List.range 9).map fun i =>
    if (strategy = .rightWell ∧ i = wellColumnOf strategy - 1) ∨
        (strategy = .leftWell ∧ i = wellColumnOf strategy) then 0
    else natDist (heights.getD i 0) (heights.getD (i + 1) 0)).sum

/-- src/ai.js lines 121-128: the drought penalty term of the well branch.
`excessDrought * wellDepth * weights.droughtPenalty` as JavaScript numbers,
so a missing droughtPenalty key makes the product NaN when the guards hold. -/
def droughtPenaltyTerm (heights : List ℕ) (wellColumn neighborColumn : ℕ)
    (iPieceDrought : ℕ) (weights : Weights) : JsNum :=
  if iPieceDrought > DROUGHT_THRESHOLD then
    let wellDepth : ℤ := (heights.getD neighborColumn 0 : ℤ) - (heights.getD wellColumn 0 : ℤ)
    if wellDepth > 3 then
      let excessDrought : ℕ := iPieceDrought - DROUGHT_THRESHOLD
      ((JsNum.num excessDrought).mul (JsNum.num wellDepth)).mul (wval weights.droughtPenalty)
    else JsNum.num 0
  else JsNum.num 0

/-- Largest column height, `Math.max(...heights)` (heights are naturals,
so folding max from 0 agrees with the JavaScript spread max). -/
def maxHeightOf (heights : List ℕ) : ℕ := heights.foldl max 0

/-- src/ai.js evaluateBoard.  The well branch multiplies raw weight reads
(no defaulting), the survival branch defaults each read with `|| 0`. -/
def evaluateBoard (grid : Grid) (clearedLines : ℕ) (strategy : Strategy)
    (weights : Weights) (iPieceDrought : ℕ) (holesBeforeClear : Option ℕ) : JsNum :=
  let heights := getColumnHeights grid
  if strategy = .rightWell ∨ strategy = .leftWell then
    let wellColumn := wellColumnOf strategy
    let neighborColumn := neighborColumnOf strategy
    let holes := getHoles grid
    let holePenalty := (wval weights.holes).mul (JsNum.num holes)
    let bumpinessPenalty := (wval weights.bumpiness).mul (JsNum.num (stackBumpiness strategy heights))
    let aggregateHeight := getAggregateHeight heights
    let heightPenalty := (wval weights.aggregateHeight).mul (JsNum.num aggregateHeight)
    let wellClogs := heights.getD wellColumn 0
    let clogPenalty := (wval weights.wellClogs).mul (JsNum.num wellClogs)
    let lineClearBonus := (wval weights.lineClearBonus).mul (JsNum.num (clearedLines * clearedLines))
    let droughtPenalty := droughtPenaltyTerm heights wellColumn neighborColumn iPieceDrought weights
    ((((holePenalty.add bumpinessPenalty).add heightPenalty).add clogPenalty).add lineClearBonus).add droughtPenalty
  else
    let holes := getHoles grid
    let aggregateHeight := getAggregateHeight heights
    let bumpiness := getBumpiness heights
    let score : ℚ :=
      (weights.aggregateHeight.getD 0) * aggregateHeight +
      (weights.completedLines.getD 0) * clearedLines +
      (weights.holes.getD 0) * holes +
      (weights.bumpiness.getD 0) * bumpiness
    let score : ℚ :=
      match holesBeforeClear with
      | some hb =>
          if 0 < clearedLines ∧ 0 < (hb : ℤ) - (holes : ℤ) then
            score + (weights.holeReduction.getD 0) * (((hb : ℤ) - (holes : ℤ) : ℤ) : ℚ)
          else score
      | none => score
    let score : ℚ :=
      if maxHeightOf heights > DANGER_HEIGHT_THRESHOLD then
        score + (weights.centerClog.getD 0) *
          ((heights.getD 3 0 + heights.getD 4 0 + heights.getD 5 0 + heights.getD 6 0 : ℕ) : ℚ)
      else score
    JsNum.num score

/-- A row with no empty cell, `row.every(cell => cell !== 0)`. -/
def isFullRow (row : List ℕ) : Bool := row.all fun c => c ≠ 0

/-- src/ai.js simulateLineClearing.  The source walks rows 23..0, counting
full rows and `unshift`-ing the others, which keeps the survivors in their
original top-to-bottom order (an order-preserving filter), then pads blank
rows on top until the height is GRID_HEIGHT again.  On 24-row grids this is
exactly the source behaviour. -/
def simulateLineClearing (grid : Grid) : Grid × ℕ :=
  let newGrid := grid.filter fun row => !(isFullRow row)
  let clearedCount := grid.countP fun row => isFullRow row
  (List.replicate (GRID_HEIGHT - newGrid.length) BLANK_ROW ++ newGrid, clearedCount)

/-- src/ai.js mutateWeights, one coefficient: skip exact zeros, perturb by
`base * (1 + change)` with `change = (r - 0.5) * 2 * factor` (the factor is
divided by 1.5 for negative bases), and revert when the product of old and
new value is negative. -/
def mutateOne (baseValue : ℚ) (mutationFactor : ℚ) (r : ℚ) : ℚ :=
  if baseValue = 0 then baseValue
  else
    let factor := if baseValue < 0 then mutationFactor / (3 / 2) else mutationFactor -- /1.5
    let change := (r - 1 / 2) * 2 * factor -- (r - 0.5) * 2 * factor
    let newValue := baseValue * (1 + change)
    if baseValue * newValue < 0 then baseValue else newValue

/-- One uniform draw from `Math.random()` for each weight key (the source
consumes one draw per present key; which draw feeds which key does not
matter for the per-key properties proved here). -/
structure RandDraws where
  aggregateHeight : ℚ := 0
  completedLines : ℚ := 0
  holes : ℚ := 0
  bumpiness : ℚ := 0
  lookaheadScore : ℚ := 0
  centerClog : ℚ := 0
  holeReduction : ℚ := 0
  wellClogs : ℚ := 0
  lineClearBonus : ℚ := 0
  droughtPenalty : ℚ := 0

/-- src/ai.js mutateWeights: every present key is mutated independently,
absent keys stay absent (the `for..in` loop never sees them). -/
def mutateWeights (baseWeights : Weights) (mutationFactor : ℚ) (draws : RandDraws) : Weights :=
  { aggregateHeight := baseWeights.aggregateHeight.map fun v => mutateOne v mutationFactor draws.aggregateHeight
    completedLines := baseWeights.completedLines.map fun v => mutateOne v mutationFactor draws.completedLines
    holes := baseWeights.holes.map fun v => mutateOne v mutationFactor draws.holes
    bumpiness := baseWeights.bumpiness.map fun v => mutateOne v mutationFactor draws.bumpiness
    lookaheadScore := baseWeights.lookaheadScore.map fun v => mutateOne v mutationFactor draws.lookaheadScore
    centerClog := baseWeights.centerClog.map fun v => mutateOne v mutationFactor draws.centerClog
    holeReduction := baseWeights.holeReduction.map fun v => mutateOne v mutationFactor draws.holeReduction
    wellClogs := baseWeights.wellClogs.map fun v => mutateOne v mutationFactor draws.wellClogs
    lineClearBonus := baseWeights.lineClearBonus.map fun v => mutateOne v mutationFactor draws.lineClearBonus
    droughtPenalty := baseWeights.droughtPenalty.map fun v => mutateOne v mutationFactor draws.droughtPenalty }

/-- The sign of a rational, for stating sign-preservation. -/
def ratSign (q : ℚ) : ℤ := if q < 0 then -1 else if q = 0 then 0 else 1

/-- A value `Math.random()` can return. -/
def validDraw (r : ℚ) : Prop := 0 ≤ r ∧ r < 1

/-- All ten draws are possible `Math.random()` values. -/
def validDraws (d : RandDraws) : Prop :=
  validDraw d.aggregateHeight ∧ validDraw d.completedLines ∧ validDraw d.holes ∧
  validDraw d.bumpiness ∧ validDraw d.lookaheadScore ∧ validDraw d.centerClog ∧
  validDraw d.holeReduction ∧ validDraw d.wellClogs ∧ validDraw d.lineClearBonus ∧
  validDraw d.droughtPenalty

/-- The all-empty 24 × 10 board. -/
def emptyGrid : Grid := List.replicate 24 (List.replicate 10 0)

/-- A right-well board whose column heights are [5,5,5,5,5,5,5,5,5,0]. -/
def gridWellDeep : Grid :=
  List.replicate 19 BLANK_ROW ++ List.replicate 5 (List.replicate 9 1 ++ [0])

/-- The same board with the well column filled up to height 9. -/
def gridWellFilled : Grid :=
  List.replicate 15 BLANK_ROW ++ List.replicate 4 (List.replicate 9 0 ++ [1]) ++
    List.replicate 5 (List.replicate 10 1)

lemma sum_map_ite_skip (k : ℕ) (f : ℕ → ℕ) (l : List ℕ) :
    (l.map fun i => if i = k then 0 else f i).sum = ((l.filter fun i => i ≠ k).map f).sum := by
  induction l with
  | nil => rfl
  | cons a t ih =>
      by_cases h : a = k <;> simp [h, List.filter_cons, ih]

lemma stackBumpiness_rightWell (heights : List ℕ) :
    stackBumpiness .rightWell heights =
      (((List.range 9).filter fun i => i ≠ 8).map fun i =>
        natDist (heights.getD i 0) (heights.getD (i + 1) 0)).sum := by
  have h := sum_map_ite_skip 8
    (fun i => natDist (heights.getD i 0) (heights.getD (i + 1) 0)) (List.range 9)
  rw [← h]
  unfold stackBumpiness wellColumnOf
  simp

lemma stackBumpiness_leftWell (heights : List ℕ) :
    stackBumpiness .leftWell heights =
      (((List.range 9).filter fun i => i ≠ 0).map fun i =>
        natDist (heights.getD i 0) (heights.getD (i + 1) 0)).sum := by
  have h := sum_map_ite_skip 0
    (fun i => natDist (heights.getD i 0) (heights.getD (i + 1) 0)) (List.range 9)
  rw [← h]
  unfold stackBumpiness wellColumnOf
  simp

/-- Claim C4: in well mode the bumpiness sum ranges over all adjacent column
pairs except exactly the pair touching the well (pair (8,9) for a right
well, pair (0,1) for a left well); consequently a right-well grid with
heights [5,5,5,5,5,5,5,5,5,0] gets the same bumpiness penalty as the same
grid with the well column filled to height 9. -/
theorem wellBumpiness_excludes_well_pair (heights : List ℕ) :
    (stackBumpiness .rightWell heights =
      (((List.range 9).filter fun i => i ≠ 8).map fun i =>
        natDist (heights.getD i 0) (heights.getD (i + 1) 0)).sum) ∧
    (stackBumpiness .leftWell heights =
      (((List.range 9).filter fun i => i ≠ 0).map fun i =>
        natDist (heights.getD i 0) (heights.getD (i + 1) 0)).sum) ∧
    getColumnHeights gridWellDeep = [5, 5, 5, 5, 5, 5, 5, 5, 5, 0] ∧
    getColumnHeights gridWellFilled = [5, 5, 5, 5, 5, 5, 5, 5, 5, 9] ∧
    ∀ w : Weights,
      (wval w.bumpiness).mul (JsNum.num (stackBumpiness .rightWell (getColumnHeights gridWellDeep))) =
      (wval w.bumpiness).mul (JsNum.num (stackBumpiness .rightWell (getColumnHeights gridWellFilled))) := by
  refine ⟨stackBumpiness_rightWell heights, stackBumpiness_leftWell heights, by decide, by decide, ?_⟩
  have h : stackBumpiness .rightWell (getColumnHeights gridWellDeep) =
      stackBumpiness .rightWell (getColumnHeights gridWellFilled) := by decide
  intro w
  rw [h]

lemma length_filter_not_add {α : Type} (p : α → Bool) (l : List α) :
    (l.filter fun a => !(p a)).length + l.countP p = l.length := by
  induction l with
  | nil => rfl
  | cons a t ih =>
      by_cases h : p a = true <;>
        simp [List.filter_cons, List.countP_cons, h] <;> omega

/-- Claim C7: simulateLineClearing always returns a 24-row grid for a
24-row input (full rows removed, survivors in original order, blank rows
inserted at the top), and is the identity with count 0 when no row is full. -/
theorem simulateLineClearing_spec (grid : Grid) (hlen : grid.length = 24) :
    (simulateLineClearing grid).1.length = 24 ∧
    (simulateLineClearing grid).2 = grid.countP (fun row => isFullRow row) ∧
    (simulateLineClearing grid).1 =
      List.replicate ((simulateLineClearing grid).2) BLANK_ROW ++
        grid.filter (fun row => !(isFullRow row)) ∧
    ((∀ row ∈ grid, isFullRow row = false) → simulateLineClearing grid = (grid, 0)) := by
  have hsplit := length_filter_not_add (fun row => isFullRow row) grid
  have hle : (grid.filter fun row => !(isFullRow row)).length ≤ 24 := by omega
  refine ⟨?_, rfl, ?_, ?_⟩
  · simp only [simulateLineClearing, GRID_HEIGHT, List.length_append, List.length_replicate]
    omega
  · simp only [simulateLineClearing, GRID_HEIGHT]
    have : 24 - (grid.filter fun row => !(isFullRow row)).length =
        grid.countP (fun row => isFullRow row) := by omega
    rw [this]
  · intro hnone
    have hfilter : grid.filter (fun row => !(isFullRow row)) = grid := by
      apply List.filter_eq_self.mpr
      intro a ha
      simp [hnone a ha]
    have hcount : grid.countP (fun row => isFullRow row) = 0 := by
      apply List.countP_eq_zero.mpr
      intro a ha
      simp [hnone a ha]
    simp only [simulateLineClearing, GRID_HEIGHT, hfilter, hcount, hlen]
    simp

/-- Witness for claim C7 at the empty board. -/
theorem simulateLineClearing_spec_witness :
    emptyGrid.length = 24 ∧ (simulateLineClearing emptyGrid).1.length = 24 :=
  ⟨by decide, (simulateLineClearing_spec emptyGrid (by decide)).1⟩

/-- Claim C3: in well mode the drought penalty is nonzero only when the
drought count exceeds 12 and `height[neighbor] - height[well] > 3`; in that
case it equals `(droughtCount - 12) * (height[neighbor] - height[well]) *
w.droughtPenalty`, and it is 0 whenever the depth difference is at most 3
(including negative depths). -/
theorem droughtPenalty_characterization (grid : Grid) (strategy : Strategy)
    (hws : strategy = .rightWell ∨ strategy = .leftWell)
    (w : Weights) (q : ℚ) (hq : w.droughtPenalty = some q) (d : ℕ) :
    (droughtPenaltyTerm (getColumnHeights grid) (wellColumnOf strategy)
        (neighborColumnOf strategy) d w =
      if 12 < d ∧ 3 < ((getColumnHeights grid).getD (neighborColumnOf strategy) 0 : ℤ) -
          ((getColumnHeights grid).getD (wellColumnOf strategy) 0 : ℤ) then
        JsNum.num (((d : ℚ) - 12) *
          ((((getColumnHeights grid).getD (neighborColumnOf strategy) 0 : ℤ) -
            ((getColumnHeights grid).getD (wellColumnOf strategy) 0 : ℤ) : ℤ) : ℚ) * q)
      else JsNum.num 0) ∧
    (((getColumnHeights grid).getD (neighborColumnOf strategy) 0 : ℤ) -
        ((getColumnHeights grid).getD (wellColumnOf strategy) 0 : ℤ) ≤ 3 →
      droughtPenaltyTerm (getColumnHeights grid) (wellColumnOf strategy)
        (neighborColumnOf strategy) d w = JsNum.num 0) ∧
    (droughtPenaltyTerm (getColumnHeights grid) (wellColumnOf strategy)
        (neighborColumnOf strategy) d w ≠ JsNum.num 0 →
      12 < d ∧ 3 < ((getColumnHeights grid).getD (neighborColumnOf strategy) 0 : ℤ) -
          ((getColumnHeights grid).getD (wellColumnOf strategy) 0 : ℤ)) := by
  set hts := getColumnHeights grid
  set nc := neighborColumnOf strategy
  set wc := wellColumnOf strategy
  set depth : ℤ := (hts.getD nc 0 : ℤ) - (hts.getD wc 0 : ℤ) with hdepth
  have hmain : droughtPenaltyTerm hts wc nc d w =
      if 12 < d ∧ 3 < depth then
        JsNum.num (((d : ℚ) - 12) * ((depth : ℤ) : ℚ) * q) else JsNum.num 0 := by
    unfold droughtPenaltyTerm DROUGHT_THRESHOLD
    rw [hq]
    by_cases hd : 12 < d
    · by_cases hdep : 3 < depth
      · rw [if_pos hd]
        rw [← hdepth, if_pos hdep, if_pos ⟨hd, hdep⟩]
        show JsNum.num (((d - 12 : ℕ) : ℚ) * ((depth : ℤ) : ℚ) * q) = _
        congr 2
        push_cast [Nat.cast_sub (le_of_lt hd)]
        ring
      · rw [if_pos hd, ← hdepth, if_neg hdep, if_neg]
        intro hc
        exact hdep hc.2
    · rw [if_neg hd, if_neg]
      intro hc
      exact hd hc.1
  refine ⟨hmain, ?_, ?_⟩
  · intro hle
    rw [hmain, if_neg]
    intro hc
    omega
  · intro hne
    by_contra hcon
    rw [hmain, if_neg hcon] at hne
    exact hne rfl

/-- Witness for claim C3 at a concrete board and the default well weights. -/
theorem droughtPenalty_characterization_witness :
    (Strategy.rightWell = Strategy.rightWell ∨ Strategy.rightWell = Strategy.leftWell) ∧
    BASE_WELL_WEIGHTS.droughtPenalty = some (2 / 25) ∧
    droughtPenaltyTerm (getColumnHeights gridWellDeep) (wellColumnOf .rightWell)
        (neighborColumnOf .rightWell) 20 BASE_WELL_WEIGHTS =
      if 12 < 20 ∧ 3 < ((getColumnHeights gridWellDeep).getD (neighborColumnOf .rightWell) 0 : ℤ) -
          ((getColumnHeights gridWellDeep).getD (wellColumnOf .rightWell) 0 : ℤ) then
        JsNum.num (((20 : ℚ) - 12) *
          ((((getColumnHeights gridWellDeep).getD (neighborColumnOf .rightWell) 0 : ℤ) -
            ((getColumnHeights gridWellDeep).getD (wellColumnOf .rightWell) 0 : ℤ) : ℤ) : ℚ) * (2 / 25))
      else JsNum.num 0 :=
  ⟨Or.inl rfl, rfl,
    (droughtPenalty_characterization gridWellDeep .rightWell (Or.inl rfl)
      BASE_WELL_WEIGHTS (2 / 25) rfl 20).1⟩

/-- The default well weights with the holes key deleted. -/
def wellWeightsNoHoles : Weights := { BASE_WELL_WEIGHTS with holes := none }

/-- The default well weights with the holes key set to 0. -/
def wellWeightsZeroHoles : Weights := { BASE_WELL_WEIGHTS with holes := some 0 }

/-- Claim C1 counterexample: in the well branch a missing weight key is not
treated as coefficient 0 — deleting the holes key makes evaluateBoard
return NaN on the empty board, while the key explicitly set to 0 gives the
finite score 0. -/
theorem missingWeight_counterexample :
    evaluateBoard emptyGrid 0 .rightWell wellWeightsNoHoles 0 none = JsNum.nan ∧
    evaluateBoard emptyGrid 0 .rightWell wellWeightsZeroHoles 0 none = JsNum.num 0 ∧
    JsNum.nan ≠ JsNum.num 0 := by
  refine ⟨rfl, ?_, by decide⟩
  have hH : getHoles emptyGrid = 0 := by decide
  have hB : stackBumpiness .rightWell (getColumnHeights emptyGrid) = 0 := by decide
  have hA : getAggregateHeight (getColumnHeights emptyGrid) = 0 := by decide
  have hW9 : (getColumnHeights emptyGrid).getD 9 0 = 0 := by decide
  have hW8 : (getColumnHeights emptyGrid).getD 8 0 = 0 := by decide
  have hW9q : (getColumnHeights emptyGrid)[9]?.getD 0 = 0 := by decide
  have hW8q : (getColumnHeights emptyGrid)[8]?.getD 0 = 0 := by decide
  unfold evaluateBoard
  rw [if_pos (Or.inl rfl)]
  norm_num [hH, hB, hA, hW9, hW8, hW9q, hW8q, wellColumnOf, neighborColumnOf,
    wellWeightsZeroHoles, BASE_WELL_WEIGHTS, wval, JsNum.mul, JsNum.add,
    droughtPenaltyTerm, DROUGHT_THRESHOLD]

/-- Claim C1 (amended): in the survival branch a missing weight key behaves
exactly as the key present with coefficient 0, and the survival branch
always returns a finite numeric score; the well branch instead yields NaN
for a missing consulted key (see the counterexample). -/
theorem survival_missingWeight_amended (g : Grid) (c : ℕ) (w : Weights) (k : WeightKey)
    (d : ℕ) (hb : Option ℕ) :
    evaluateBoard g c .survival (setW k none w) d hb =
      evaluateBoard g c .survival (setW k (some 0) w) d hb ∧
    (evaluateBoard g c .survival w d hb).isNum = true := by
  constructor
  · cases k <;> rfl
  · rfl

/-- A base weight object with one nonzero coefficient, for the C6
counterexample. -/
def cexBase : Weights := { aggregateHeight := some 1 }

/-- All draws equal to 0 (a value `Math.random()` can produce). -/
def cexDraws : RandDraws := {}

/-- Claim C6 counterexample: with mutation factor 1 and draw 0, the
coefficient 1 mutates to exactly 0 — the guard only reverts strict sign
flips, so a nonzero coefficient can become zero and lose its sign. -/
theorem mutateWeights_sign_counterexample :
    validDraws cexDraws ∧
    getW .aggregateHeight cexBase = some 1 ∧
    getW .aggregateHeight (mutateWeights cexBase 1 cexDraws) = some 0 ∧
    ratSign 0 ≠ ratSign 1 := by
  refine ⟨by norm_num [validDraws, validDraw, cexDraws], rfl, ?_, by norm_num [ratSign]⟩
  norm_num [mutateWeights, getW, mutateOne, cexBase, cexDraws]

lemma mutateOne_sign (v factor r : ℚ) (hf : |factor| < 1) (hr : 0 ≤ r) (hr1 : r < 1) :
    ratSign (mutateOne v factor r) = ratSign v := by
  by_cases hv : v = 0
  · simp [mutateOne, hv]
  unfold mutateOne
  rw [if_neg hv]
  have hfabs : |if v < 0 then factor / (3 / 2) else factor| < 1 := by
    by_cases h : v < 0
    · rw [if_pos h, abs_div]
      have h32 : |(3 / 2 : ℚ)| = 3 / 2 := by norm_num
      rw [h32]
      have : |factor| / (3 / 2) ≤ |factor| := by
        apply div_le_self (abs_nonneg _)
        norm_num
      linarith
    · rw [if_neg h]; exact hf
  set f := if v < 0 then factor / (3 / 2) else factor with hfdef
  have hchange : |(r - 1 / 2) * 2 * f| < 1 := by
    have h1 : |(r - 1 / 2) * 2| ≤ 1 := by
      rw [abs_mul]
      have h2 : |r - 1 / 2| ≤ 1 / 2 := abs_le.mpr ⟨by linarith, by linarith⟩
      have h3 : |(2 : ℚ)| = 2 := by norm_num
      rw [h3]
      linarith
    calc |(r - 1 / 2) * 2 * f| = |(r - 1 / 2) * 2| * |f| := abs_mul _ _
      _ ≤ 1 * |f| := mul_le_mul_of_nonneg_right h1 (abs_nonneg f)
      _ = |f| := one_mul _
      _ < 1 := hfabs
  have hpos : 0 < 1 + (r - 1 / 2) * 2 * f := by
    have := neg_lt_of_abs_lt hchange
    linarith
  rcases lt_trichotomy v 0 with hneg | hzero | hposv
  · have hnew : v * (1 + (r - 1 / 2) * 2 * f) < 0 := mul_neg_of_neg_of_pos hneg hpos
    have hguard : ¬ (v * (v * (1 + (r - 1 / 2) * 2 * f)) < 0) := by nlinarith
    rw [if_neg hguard]
    unfold ratSign
    rw [if_pos hnew, if_pos hneg]
  · exact absurd hzero hv
  · have hnew : 0 < v * (1 + (r - 1 / 2) * 2 * f) := mul_pos hposv hpos
    have hguard : ¬ (v * (v * (1 + (r - 1 / 2) * 2 * f)) < 0) := by nlinarith
    rw [if_neg hguard]
    unfold ratSign
    rw [if_neg (not_lt_of_gt hnew), if_neg (ne_of_gt hnew),
      if_neg (not_lt_of_gt hposv), if_neg (ne_of_gt hposv)]

/-- Claim C6 (amended): for mutation factors of magnitude below 1 (the
source always uses 0.1 or 0.2) and any possible draws, mutateWeights
preserves the sign of every coefficient: absent keys stay absent, zero
coefficients stay zero, and nonzero coefficients keep their strict sign. -/
theorem mutateWeights_sign_preserved (b : Weights) (factor : ℚ) (d : RandDraws)
    (hf : |factor| < 1) (hd : validDraws d) (k : WeightKey) :
    (getW k (mutateWeights b factor d)).map ratSign = (getW k b).map ratSign := by
  obtain ⟨h1, h2, h3, h4, h5, h6, h7, h8, h9, h10⟩ := hd
  cases k <;> simp only [mutateWeights, getW] <;>
    [cases hb : b.aggregateHeight; cases hb : b.completedLines; cases hb : b.holes;
     cases hb : b.bumpiness; cases hb : b.lookaheadScore; cases hb : b.centerClog;
     cases hb : b.holeReduction; cases hb : b.wellClogs; cases hb : b.lineClearBonus;
     cases hb : b.droughtPenalty] <;>
    simp [mutateOne_sign _ _ _ hf h1.1 h1.2, mutateOne_sign _ _ _ hf h2.1 h2.2,
      mutateOne_sign _ _ _ hf h3.1 h3.2, mutateOne_sign _ _ _ hf h4.1 h4.2,
      mutateOne_sign _ _ _ hf h5.1 h5.2, mutateOne_sign _ _ _ hf h6.1 h6.2,
      mutateOne_sign _ _ _ hf h7.1 h7.2, mutateOne_sign _ _ _ hf h8.1 h8.2,
      mutateOne_sign _ _ _ hf h9.1 h9.2, mutateOne_sign _ _ _ hf h10.1 h10.2]

/-- Witness for the amended claim C6 at the default survival weights,
factor 0.1 and all draws 0. -/
theorem mutateWeights_sign_preserved_witness :
    |(1 / 10 : ℚ)| < 1 ∧ validDraws cexDraws ∧
    (getW .holes (mutateWeights BASE_SURVIVAL_WEIGHTS (1 / 10) cexDraws)).map ratSign =
      (getW .holes BASE_SURVIVAL_WEIGHTS).map ratSign :=
  ⟨abs_lt.mpr (by norm_num), by norm_num [validDraws, validDraw, cexDraws],
    mutateWeights_sign_preserved BASE_SURVIVAL_WEIGHTS (1 / 10) cexDraws
      (abs_lt.mpr (by norm_num))
      (by norm_num [validDraws, validDraw, cexDraws]) .holes⟩

/-- Modelled from the spec: src/data.js (the piece-shape table `blockCoords`,
the identifier `BLOCK_I`, and the four rotation kick tables `rotIright`,
`rotIleft`, `rotJLTSZright`, `rotJLTSZleft`) is imported by src/ai.js and
src/game.js but is not under src/.  The spec describes it as a table of
7 piece kinds with per-rotation offset-cell lists plus one fixed kick table
for the long piece and one shared table for the other non-square pieces.
The search and collision code is therefore parameterized by this data. -/
structure PieceData where
  blockCoords : Fin 7 → List (List (ℤ × ℤ))
  blockI : Fin 7
  rotIright : Fin 4 → List (ℤ × ℤ)
  rotIleft : Fin 4 → List (ℤ × ℤ)
  rotJLTSZright : Fin 4 → List (ℤ × ℤ)
  rotJLTSZleft : Fin 4 → List (ℤ × ℤ)

/-- An active piece: kind, anchor position and rotation state. -/
structure Piece where
  type : Fin 7
  x : ℤ
  y : ℤ
  rotation : ℕ
deriving DecidableEq

/-- Shape lookup `blockCoords[t][n]` (empty list when out of range). -/
def shapeAt (D : PieceData) (t : Fin 7) (n : ℕ) : List (ℤ × ℤ) :=
  (D.blockCoords t).getD n []

/-- src/game.js collidesWithGrid: true iff some shape cell of the piece at
rotation `(rotation + new_rotation) % 4`, translated by `(new_x, new_y)`,
leaves the columns `[0, 10)`, reaches row 24 or below, or overlaps an
occupied cell at row >= 0.  Cells at row < 0 (the hidden buffer above the
board) never collide. -/
def collidesWithGrid (D : PieceData) (grid : Grid) (activeBlock : Piece)
    (new_x new_y : ℤ) (new_rotation : ℕ) : Bool :=
  (shapeAt D activeBlock.type ((activeBlock.rotation + new_rotation) % 4)).any fun coord =>
    let col := activeBlock.x + new_x + coord.1
    let row := activeBlock.y + new_y + coord.2
    decide (col < 0) || decide ((10 : ℤ) ≤ col) || decide ((24 : ℤ) ≤ row) ||
      (decide ((0 : ℤ) ≤ row) && decide (cell grid row.toNat col.toNat ≠ 0))

/-- Write one cell of the grid (no-op out of range; callers guard bounds). -/
def setCell (grid : Grid) (r c v : ℕ) : Grid :=
  grid.set r ((grid.getD r []).set c v)

/-- src/ai.js lines 260-268 and 186-193: write the piece's shape cells as
`type + 1` into a copy of the grid, skipping out-of-bounds cells. -/
def lockPiece (D : PieceData) (grid : Grid) (p : Piece) : Grid :=
  (shapeAt D p.type p.rotation).foldl
    (fun g coord =>
      let col := p.x + coord.1
      let row := p.y + coord.2
      if 0 ≤ row ∧ row < 24 ∧ 0 ≤ col ∧ col < 10 then
        setCell g row.toNat col.toNat ((p.type : ℕ) + 1)
      else g) grid

/-- src/ai.js lines 179-182: starting from y, descend while the next row
down is collision-free.  The loop always stops within the board height
because row 24 collides; the fuel 28 covers every start inside the board. -/
def dropYLoop (D : PieceData) (grid : Grid) (p : Piece) : ℕ → ℤ → ℤ
  | 0, y => y
  | fuel + 1, y =>
      if collidesWithGrid D grid { p with y := y + 1 } 0 0 0 then y
      else dropYLoop D grid p fuel (y + 1)

/-- src/ai.js evaluateAllPossiblePlacements: for the known next piece, try
every rotation index and every x from -2 to 9; the first collision test is
run with the piece's y still undefined, so in JavaScript its row tests are
NaN-false and only the column bounds can reject; then drop from y = 0,
lock, clear, evaluate, and keep the minimum score (Infinity when no
placement was evaluated, 0 when there is no next piece). -/
def evaluateAllPossiblePlacements (D : PieceData) (grid : Grid) (piece : Option (Fin 7))
    (strategy : Strategy) (weights : Weights) (iPieceDrought : ℕ) : JsNum :=
  match piece with
  | none => JsNum.num 0
  | some t =>
      (List.range (D.blockCoords t).length).foldl (fun bestScore rotation =>
        (List.range 12).foldl (fun bestScore xi =>
          let x : ℤ := (xi : ℤ) - 2
          if (shapeAt D t (rotation % 4)).any
              (fun coord => decide (x + coord.1 < 0) || decide ((10 : ℤ) ≤ x + coord.1)) then
            bestScore
          else
            let tempPiece : Piece := { type := t, x := x, y := 0, rotation := rotation }
            let y := dropYLoop D grid tempPiece 28 0
            let placed : Piece := { tempPiece with y := y }
            let tempGrid := lockPiece D grid placed
            let holesBeforeClear := getHoles tempGrid
            let res := simulateLineClearing tempGrid
            let score := evaluateBoard res.1 res.2 strategy weights iPieceDrought (some holesBeforeClear)
            if score.lt bestScore then score else bestScore) bestScore)
        JsNum.posInf

/-- The AI action vocabulary. -/
inductive AiAction where
  | moveL
  | moveR
  | softD
  | rotateR
  | rotateL
  | hardD
deriving DecidableEq

/-- A rotation direction. -/
inductive RotDir where
  | R
  | L
deriving DecidableEq

/-- src/ai.js getPieceKey: the dedup key is exactly the pose (x, y, rotation). -/
def getPieceKey (p : Piece) : ℤ × ℤ × ℕ := (p.x, p.y, p.rotation)

/-- src/ai.js simulateRotation: the square piece (type 3) never rotates;
otherwise try the kick table entries for the current rotation state in
order and apply the first collision-free one. -/
def simulateRotation (D : PieceData) (grid : Grid) (p : Piece) (direction : RotDir) :
    Option Piece :=
  if p.type = (3 : Fin 7) then none
  else
    let srsData :=
      if p.type = D.blockI then
        (if direction = .R then D.rotIright else D.rotIleft)
      else
        (if direction = .R then D.rotJLTSZright else D.rotJLTSZleft)
    let tests := srsData ⟨p.rotation % 4, Nat.mod_lt _ (by norm_num)⟩
    let r : ℕ := if direction = .R then 1 else 3
    match tests.find? (fun t => !(collidesWithGrid D grid p t.1 t.2 r)) with
    | some t => some { p with x := p.x + t.1, y := p.y + t.2, rotation := (p.rotation + r) % 4 }
    | none => none

/-- src/ai.js lines 287-293: the candidate actions from a pose, in source
order, keeping only the valid ones (moves and soft drop are guarded by a
collision test, rotations by a successful kick). -/
def successorMoves (D : PieceData) (grid : Grid) (p : Piece) : List (AiAction × Piece) :=
  (if !(collidesWithGrid D grid p (-1) 0 0) then [(AiAction.moveL, { p with x := p.x - 1 })] else []) ++
  (if !(collidesWithGrid D grid p 1 0 0) then [(AiAction.moveR, { p with x := p.x + 1 })] else []) ++
  (if !(collidesWithGrid D grid p 0 1 0) then [(AiAction.softD, { p with y := p.y + 1 })] else []) ++
  (match simulateRotation D grid p .R with
   | some q => [(AiAction.rotateR, q)]
   | none => []) ++
  (match simulateRotation D grid p .L with
   | some q => [(AiAction.rotateL, q)]
   | none => [])

/-- A BFS queue entry: a pose and the action path that reached it. -/
structure Node where
  piece : Piece
  path : List AiAction
deriving DecidableEq

/-- The BFS state: FIFO queue, visited pose keys, and the best terminal
candidate so far (score, full path ending in hard drop, target pose). -/
structure Config where
  queue : List Node
  visited : List (ℤ × ℤ × ℕ)
  best : Option (JsNum × List AiAction × Piece)
deriving DecidableEq

/-- The running minimum: `Infinity` when no candidate has been recorded. -/
def bestScoreOf : Option (JsNum × List AiAction × Piece) → JsNum
  | none => JsNum.posInf
  | some b => b.1

/-- src/ai.js line 277: `weights.lookaheadScore || 0.8` — any falsy value of
the key (absent, or present and exactly 0) falls back to 0.8. -/
def lookaheadWeightOf (weights : Weights) : ℚ :=
  match weights.lookaheadScore with
  | some q => if q = 0 then 4 / 5 else q
  | none => 4 / 5

/-- src/ai.js lines 295-303: push each candidate action whose pose key is
not yet visited, marking it visited immediately (so later actions of the
same iteration see the additions). -/
def pushSuccessors (path : List AiAction) (l : List (AiAction × Piece))
    (v : List (ℤ × ℤ × ℕ)) (ns : List Node) : List (ℤ × ℤ × ℕ) × List Node :=
  l.foldl
    (fun acc ap =>
      if getPieceKey ap.2 ∈ acc.1 then acc
      else (acc.1 ++ [getPieceKey ap.2], acc.2 ++ [{ piece := ap.2, path := path ++ [ap.1] }]))
    (v, ns)

/-- One iteration of the src/ai.js findBestMove while-loop: dequeue a pose;
if it cannot move down it is a terminal candidate (lock, clear, evaluate,
add the weighted lookahead score, keep the strict minimum); then push each
valid successor whose key is not yet visited. -/
def bfsStep (D : PieceData) (grid : Grid) (strategy : Strategy) (weights : Weights)
    (iPieceDrought : ℕ) (next : Option (Fin 7)) (cfg : Config) : Config :=
  match cfg.queue with
  | [] => cfg
  | node :: rest =>
      let p := node.piece
      let best :=
        if collidesWithGrid D grid p 0 1 0 then
          let tempGrid := lockPiece D grid p
          let holesBeforeClear := getHoles tempGrid
          let res := simulateLineClearing tempGrid
          let currentMoveScore :=
            evaluateBoard res.1 res.2 strategy weights iPieceDrought (some holesBeforeClear)
          let nextPieceBestScore :=
            evaluateAllPossiblePlacements D res.1 next strategy weights iPieceDrought
          let totalScore :=
            currentMoveScore.add (nextPieceBestScore.mul (JsNum.num (lookaheadWeightOf weights)))
          if totalScore.lt (bestScoreOf cfg.best) then
            some (totalScore, node.path ++ [AiAction.hardD], p)
          else cfg.best
        else cfg.best
      let pushed := pushSuccessors node.path (successorMoves D grid p) cfg.visited []
      { queue := rest ++ pushed.2, visited := pushed.1, best := best }

/-- Iterate the BFS step; the step is the identity on an empty queue. -/
def bfsIter (D : PieceData) (grid : Grid) (strategy : Strategy) (weights : Weights)
    (iPieceDrought : ℕ) (next : Option (Fin 7)) : ℕ → Config → Config
  | 0, cfg => cfg
  | n + 1, cfg => bfsIter D grid strategy weights iPieceDrought next n
      (bfsStep D grid strategy weights iPieceDrought next cfg)

/-- The slice of the game state read by findBestMove. -/
structure AiState where
  grid : Grid
  Block : Option Piece
  Next : Option (Fin 7)
  iPieceDrought : ℕ

/-- src/ai.js lines 240-246: a well strategy is silently replaced by
survival for the entire search when the tallest column exceeds
DANGER_HEIGHT_THRESHOLD. -/
def effectiveStrategy (grid : Grid) (strategy : Strategy) : Strategy :=
  if (strategy = .rightWell ∨ strategy = .leftWell) ∧
      maxHeightOf (getColumnHeights grid) > DANGER_HEIGHT_THRESHOLD then
    .survival
  else strategy

/-- The result of findBestMove: an action path and an optional target pose. -/
structure MoveResult where
  path : List AiAction
  target : Option Piece
deriving DecidableEq

/-- src/ai.js line 305: `bestPath || ['hardD']` with the recorded target —
no candidate means the defensive single hard drop with no target. -/
def finishResult : Option (JsNum × List AiAction × Piece) → MoveResult
  | none => { path := [AiAction.hardD], target := none }
  | some b => { path := b.2.1, target := some b.2.2 }

/-- All pose keys the search can reach from the start pose: x is confined
to [-3, 9] and y to [min y0 (-8), 23] by collision-freeness and the kick
tables, and the rotation is the start rotation or a reduced one. -/
def keyBox (p0 : Piece) : Finset (ℤ × ℤ × ℕ) :=
  (Finset.Icc (-3 : ℤ) 9) ×ˢ ((Finset.Icc (min p0.y (-8)) 23) ×ˢ insert p0.rotation (Finset.range 4))

/-- Iteration budget that provably exhausts the queue (claim C9). -/
def bfsFuel (p0 : Piece) : ℕ := 2 * (keyBox p0).card + 2

/-- src/ai.js lines 252-253: initial queue and visited set. -/
def initConfig (p0 : Piece) : Config :=
  { queue := [{ piece := p0, path := [] }], visited := [getPieceKey p0], best := none }

/-- src/ai.js findBestMove: compute the effective strategy, return the empty
plan when there is no active piece, otherwise run the breadth-first search
to exhaustion and package the best candidate (the iteration budget
`bfsFuel` provably exhausts the queue, see claim C9). -/
def findBestMove (D : PieceData) (state : AiState) (strategy : Strategy)
    (weights : Weights) : MoveResult :=
  let eff := effectiveStrategy state.grid strategy
  match state.Block with
  | none => { path := [], target := none }
  | some p0 =>
      finishResult (bfsIter D state.grid eff weights state.iPieceDrought state.Next
        (bfsFuel p0) (initConfig p0)).best

/-- Modelled from the spec: concrete piece data in the shape src/data.js
must have (src/ai.js and src/game.js call the tables `srsData`, i.e. the
standard Super Rotation System): 7 tetromino kinds, 4 rotation states each
with offset cells inside a 4 x 4 box, one kick table for the long I piece
and one shared kick table for the other non-square pieces, each entry list
starting with the null kick (0,0).  The y axis grows downward as in the
grid, so the standard table dy values are negated. -/
def srsData : PieceData :=
  { blockI := 0
    blockCoords := fun t =>
      [ -- I
        [[(0, 1), (1, 1), (2, 1), (3, 1)], [(2, 0), (2, 1), (2, 2), (2, 3)],
         [(0, 2), (1, 2), (2, 2), (3, 2)], [(1, 0), (1, 1), (1, 2), (1, 3)]],
        -- J
        [[(0, 0), (0, 1), (1, 1), (2, 1)], [(1, 0), (2, 0), (1, 1), (1, 2)],
         [(0, 1), (1, 1), (2, 1), (2, 2)], [(1, 0), (1, 1), (0, 2), (1, 2)]],
        -- L
        [[(2, 0), (0, 1), (1, 1), (2, 1)], [(1, 0), (1, 1), (1, 2), (2, 2)],
         [(0, 1), (1, 1), (2, 1), (0, 2)], [(0, 0), (1, 0), (1, 1), (1, 2)]],
        -- O
        [[(1, 0), (2, 0), (1, 1), (2, 1)], [(1, 0), (2, 0), (1, 1), (2, 1)],
         [(1, 0), (2, 0), (1, 1), (2, 1)], [(1, 0), (2, 0), (1, 1), (2, 1)]],
        -- S
        [[(1, 0), (2, 0), (0, 1), (1, 1)], [(1, 0), (1, 1), (2, 1), (2, 2)],
         [(1, 1), (2, 1), (0, 2), (1, 2)], [(0, 0), (0, 1), (1, 1), (1, 2)]],
        -- T
        [[(1, 0), (0, 1), (1, 1), (2, 1)], [(1, 0), (1, 1), (2, 1), (1, 2)],
         [(0, 1), (1, 1), (2, 1), (1, 2)], [(1, 0), (0, 1), (1, 1), (1, 2)]],
        -- Z
        [[(0, 0), (1, 0), (1, 1), (2, 1)], [(2, 0), (1, 1), (2, 1), (1, 2)],
         [(0, 1), (1, 1), (1, 2), (2, 2)], [(1, 0), (0, 1), (1, 1), (0, 2)]]
      ].getD t.val []
    rotIright := fun i =>
      [[(0, 0), (-2, 0), (1, 0), (-2, 1), (1, -2)],
       [(0, 0), (-1, 0), (2, 0), (-1, -2), (2, 1)],
       [(0, 0), (2, 0), (-1, 0), (2, -1), (-1, 2)],
       [(0, 0), (1, 0), (-2, 0), (1, 2), (-2, -1)]].getD i.val []
    rotIleft := fun i =>
      [[(0, 0), (-1, 0), (2, 0), (-1, -2), (2, 1)],
       [(0, 0), (2, 0), (-1, 0), (2, -1), (-1, 2)],
       [(0, 0), (1, 0), (-2, 0), (1, 2), (-2, -1)],
       [(0, 0), (-2, 0), (1, 0), (-2, 1), (1, -2)]].getD i.val []
    rotJLTSZright := fun i =>
      [[(0, 0), (-1, 0), (-1, -1), (0, 2), (-1, 2)],
       [(0, 0), (1, 0), (1, 1), (0, -2), (1, -2)],
       [(0, 0), (1, 0), (1, -1), (0, 2), (1, 2)],
       [(0, 0), (-1, 0), (-1, 1), (0, -2), (-1, -2)]].getD i.val []
    rotJLTSZleft := fun i =>
      [[(0, 0), (1, 0), (1, -1), (0, 2), (1, 2)],
       [(0, 0), (1, 0), (1, 1), (0, -2), (1, -2)],
       [(0, 0), (-1, 0), (-1, -1), (0, 2), (-1, 2)],
       [(0, 0), (-1, 0), (-1, 1), (0, -2), (-1, -2)]].getD i.val [] }

/-- Claim C8: collidesWithGrid returns true iff some shape cell of the
piece at rotation (rotation + drot) % 4, translated by (dx, dy), has its
column outside [0, 10), or its row at or past 24, or lands on an occupied
cell at row >= 0; an in-bounds cell at negative row never collides,
whatever the grid contents. -/
theorem collidesWithGrid_iff (D : PieceData) (grid : Grid) (p : Piece)
    (dx dy : ℤ) (dr : ℕ) :
    collidesWithGrid D grid p dx dy dr = true ↔
      ∃ coord ∈ shapeAt D p.type ((p.rotation + dr) % 4),
        p.x + dx + coord.1 < 0 ∨ (10 : ℤ) ≤ p.x + dx + coord.1 ∨
        (24 : ℤ) ≤ p.y + dy + coord.2 ∨
        ((0 : ℤ) ≤ p.y + dy + coord.2 ∧
          cell grid (p.y + dy + coord.2).toNat (p.x + dx + coord.1).toNat ≠ 0) := by
  unfold collidesWithGrid
  simp [List.any_eq_true, or_assoc]

/-- Claim C2: when a well strategy is requested but some column is taller
than DANGER_HEIGHT_THRESHOLD = 18, the whole findBestMove call runs with
the survival strategy instead: every terminal candidate and every lookahead
placement is scored by the survival branch, exactly as if the caller had
passed survival. -/
theorem findBestMove_danger_override (D : PieceData) (state : AiState)
    (strategy : Strategy) (w : Weights)
    (hs : strategy = .rightWell ∨ strategy = .leftWell)
    (hh : maxHeightOf (getColumnHeights state.grid) > DANGER_HEIGHT_THRESHOLD) :
    effectiveStrategy state.grid strategy = .survival ∧
    findBestMove D state strategy w = findBestMove D state .survival w := by
  have h1 : effectiveStrategy state.grid strategy = .survival := by
    unfold effectiveStrategy
    rw [if_pos ⟨hs, hh⟩]
  have h2 : effectiveStrategy state.grid .survival = .survival := by
    unfold effectiveStrategy
    rw [if_neg]
    rintro ⟨h | h, -⟩ <;> exact Strategy.noConfusion h
  refine ⟨h1, ?_⟩
  unfold findBestMove
  rw [h1, h2]

/-- A 24-row board whose first column is filled to height 24 (> 18). -/
def tallGrid : Grid := List.replicate 24 ([1] ++ List.replicate 9 0)

/-- A game state with no active piece. -/
def noBlockState : AiState :=
  { grid := tallGrid, Block := none, Next := none, iPieceDrought := 0 }

/-- Witness for claim C2 on the tall board. -/
theorem findBestMove_danger_override_witness :
    (Strategy.rightWell = Strategy.rightWell ∨ Strategy.rightWell = Strategy.leftWell) ∧
    maxHeightOf (getColumnHeights noBlockState.grid) > DANGER_HEIGHT_THRESHOLD ∧
    findBestMove srsData noBlockState .rightWell BASE_WELL_WEIGHTS =
      findBestMove srsData noBlockState .survival BASE_WELL_WEIGHTS :=
  ⟨Or.inl rfl, by decide,
    (findBestMove_danger_override srsData noBlockState .rightWell BASE_WELL_WEIGHTS
      (Or.inl rfl) (by decide)).2⟩

/-- Claim C5: findBestMove always returns a defined result: with no active
piece it returns the empty path and no target; otherwise it packages the
search result through finishResult, and when the search records no terminal
candidate (best = none) that packaging is the single defensive hard drop
with no target. -/
theorem findBestMove_defensive (D : PieceData) (state : AiState)
    (strategy : Strategy) (w : Weights) :
    (state.Block = none → findBestMove D state strategy w = { path := [], target := none }) ∧
    (∀ p0, state.Block = some p0 →
      findBestMove D state strategy w =
        finishResult (bfsIter D state.grid (effectiveStrategy state.grid strategy) w
          state.iPieceDrought state.Next (bfsFuel p0) (initConfig p0)).best) ∧
    finishResult none = { path := [AiAction.hardD], target := none } := by
  refine ⟨?_, ?_, rfl⟩
  · intro h
    unfold findBestMove
    rw [h]
  · intro p0 h
    unfold findBestMove
    rw [h]

/-- Witness for claim C5 at a state with no active piece. -/
theorem findBestMove_defensive_witness :
    noBlockState.Block = none ∧
    findBestMove srsData noBlockState .survival BASE_SURVIVAL_WEIGHTS =
      { path := [], target := none } :=
  ⟨rfl, (findBestMove_defensive srsData noBlockState .survival BASE_SURVIVAL_WEIGHTS).1 rfl⟩

lemma bfsStep_lookahead_zero (D : PieceData) (g : Grid) (s : Strategy)
    (a b c d e f g' hb i : Option ℚ) (dd : ℕ) (nx : Option (Fin 7)) (cfg : Config) :
    bfsStep D g s ⟨a, b, c, d, some 0, e, f, g', hb, i⟩ dd nx cfg =
      bfsStep D g s ⟨a, b, c, d, none, e, f, g', hb, i⟩ dd nx cfg := by
  unfold bfsStep
  rfl

lemma bfsIter_lookahead_zero (D : PieceData) (g : Grid) (s : Strategy)
    (a b c d e f g' hb i : Option ℚ) (dd : ℕ) (nx : Option (Fin 7)) (n : ℕ) (cfg : Config) :
    bfsIter D g s ⟨a, b, c, d, some 0, e, f, g', hb, i⟩ dd nx n cfg =
      bfsIter D g s ⟨a, b, c, d, none, e, f, g', hb, i⟩ dd nx n cfg := by
  induction n generalizing cfg with
  | zero => rfl
  | succ m ih =>
      unfold bfsIter
      rw [bfsStep_lookahead_zero]
      exact ih _

/-- Claim C10: `weights.lookaheadScore || 0.8` treats the present value 0 as
falsy, so a weight vector with lookaheadScore = 0 still combines scores
with lookahead weight 0.8, exactly as if the key were absent — the
lookahead cannot be disabled by setting the key to 0. -/
theorem lookahead_zero_not_disabled (D : PieceData) (state : AiState)
    (strategy : Strategy) (w : Weights) (h : w.lookaheadScore = some 0) :
    lookaheadWeightOf w = 4 / 5 ∧
    findBestMove D state strategy w =
      findBestMove D state strategy { w with lookaheadScore := none } := by
  obtain ⟨a, b, c, d, ls, e, f, g, hb, i⟩ := w
  simp only at h
  subst h
  refine ⟨rfl, ?_⟩
  unfold findBestMove
  cases hB : state.Block with
  | none => rfl
  | some p0 =>
      exact congrArg (fun cc => finishResult cc.best)
        (bfsIter_lookahead_zero D state.grid
          (effectiveStrategy state.grid strategy) a b c d e f g hb i
          state.iPieceDrought state.Next (bfsFuel p0) (initConfig p0))

/-- Witness for claim C10: survival weights with lookaheadScore set to 0. -/
theorem lookahead_zero_not_disabled_witness :
    ({ BASE_SURVIVAL_WEIGHTS with lookaheadScore := some 0 } : Weights).lookaheadScore = some 0 ∧
    lookaheadWeightOf { BASE_SURVIVAL_WEIGHTS with lookaheadScore := some 0 } = 4 / 5 :=
  ⟨rfl, (lookahead_zero_not_disabled srsData noBlockState .survival
    { BASE_SURVIVAL_WEIGHTS with lookaheadScore := some 0 } rfl).1⟩

/-- Check that every kick entry with a vertical component is preceded by an
entry with the same horizontal component and no vertical component (`seen`
accumulates the horizontal components already offered with dy = 0).  The
standard SRS tables have this shape; it implies that far above the board,
where only the walls can collide, a chosen kick never moves the piece. -/
def normalKicksB : List (ℤ × ℤ) → List ℤ → Bool
  | [], _ => true
  | e :: rest, seen =>
      (e.2 == 0 || seen.contains e.1) &&
        normalKicksB rest (if e.2 == 0 then e.1 :: seen else seen)

/-- A well-formed kick list: vertical offsets bounded by 2 and the
normality property above. -/
abbrev KicksOK (L : List (ℤ × ℤ)) : Prop :=
  (∀ e ∈ L, -2 ≤ e.2 ∧ e.2 ≤ 2) ∧ normalKicksB L [] = true

/-- Well-formedness of the modelled piece data, as described by the spec:
every kind has 4 rotation states, every shape is a nonempty list of offsets
inside a 4 x 4 box, and all kick lists are well formed. -/
abbrev GoodData (D : PieceData) : Prop :=
  (∀ t : Fin 7, (D.blockCoords t).length = 4 ∧
    ∀ s ∈ D.blockCoords t, s ≠ [] ∧ ∀ c ∈ s, 0 ≤ c.1 ∧ c.1 ≤ 3 ∧ 0 ≤ c.2 ∧ c.2 ≤ 3) ∧
  (∀ i : Fin 4, KicksOK (D.rotIright i) ∧ KicksOK (D.rotIleft i) ∧
    KicksOK (D.rotJLTSZright i) ∧ KicksOK (D.rotJLTSZleft i))

lemma shapeAt_good {D : PieceData} (hD : GoodData D) (t : Fin 7) (n : ℕ) (hn : n < 4) :
    shapeAt D t n ≠ [] ∧ ∀ c ∈ shapeAt D t n, 0 ≤ c.1 ∧ c.1 ≤ 3 ∧ 0 ≤ c.2 ∧ c.2 ≤ 3 := by
  have h := hD.1 t
  have hlen : n < (D.blockCoords t).length := by omega
  have hmem : shapeAt D t n ∈ D.blockCoords t := by
    unfold shapeAt
    rw [List.getD_eq_getElem _ _ hlen]
    exact List.getElem_mem _
  exact h.2 _ hmem

lemma collides_false_forall {D : PieceData} {grid : Grid} {p : Piece}
    {dx dy : ℤ} {dr : ℕ} (h : collidesWithGrid D grid p dx dy dr = false) :
    ∀ coord ∈ shapeAt D p.type ((p.rotation + dr) % 4),
      0 ≤ p.x + dx + coord.1 ∧ p.x + dx + coord.1 < 10 ∧ p.y + dy + coord.2 < 24 := by
  intro c hc
  unfold collidesWithGrid at h
  rw [List.any_eq_false] at h
  have hcp := h c hc
  simp at hcp
  refine ⟨by omega, by omega, by omega⟩

lemma cf_bounds {D : PieceData} (hD : GoodData D) (grid : Grid) (p : Piece)
    (h : collidesWithGrid D grid p 0 0 0 = false) :
    -3 ≤ p.x ∧ p.x ≤ 9 ∧ p.y ≤ 23 := by
  have hsh := shapeAt_good hD p.type ((p.rotation + 0) % 4) (Nat.mod_lt _ (by norm_num))
  obtain ⟨c, hc⟩ := List.exists_mem_of_ne_nil _ hsh.1
  have hb := hsh.2 c hc
  have hcol := collides_false_forall h c hc
  refine ⟨by omega, by omega, by omega⟩

lemma any_congr_mem {α : Type} (l : List α) (f g : α → Bool)
    (h : ∀ a ∈ l, f a = g a) : l.any f = l.any g := by
  induction l with
  | nil => rfl
  | cons a t ih =>
      simp only [List.any_cons]
      rw [h a (by simp), ih fun b hb => h b (by simp [hb])]

lemma collides_shift (D : PieceData) (g : Grid) (p q : Piece) (a b : ℤ) (r : ℕ)
    (ht : q.type = p.type) (hx : q.x = p.x + a) (hy : q.y = p.y + b)
    (hr : q.rotation % 4 = (p.rotation + r) % 4) :
    collidesWithGrid D g q 0 0 0 = collidesWithGrid D g p a b r := by
  unfold collidesWithGrid
  rw [ht, hx, hy, Nat.add_zero, hr]
  apply any_congr_mem
  intro c hc
  norm_num [add_assoc]

/-- Collision reduced to the wall test: whether some shape cell leaves the
columns, ignoring rows. -/
def colOut (D : PieceData) (p : Piece) (dx : ℤ) (r : ℕ) : Bool :=
  (shapeAt D p.type ((p.rotation + r) % 4)).any fun coord =>
    decide (p.x + dx + coord.1 < 0) || decide ((10 : ℤ) ≤ p.x + dx + coord.1)

lemma collides_high {D : PieceData} (hD : GoodData D) (g : Grid) (p : Piece)
    (hy : p.y ≤ -6) (dx dy : ℤ) (hdy1 : -2 ≤ dy) (hdy2 : dy ≤ 2) (r : ℕ) :
    collidesWithGrid D g p dx dy r = colOut D p dx r := by
  unfold collidesWithGrid colOut
  apply any_congr_mem
  intro c hc
  have hb := (shapeAt_good hD p.type ((p.rotation + r) % 4) (Nat.mod_lt _ (by norm_num))).2 c hc
  have hrow : p.y + dy + c.2 < 0 := by omega
  have h24 : decide ((24 : ℤ) ≤ p.y + dy + c.2) = false := by
    simp only [decide_eq_false_iff_not]
    omega
  have h0 : decide ((0 : ℤ) ≤ p.y + dy + c.2) = false := by
    simp only [decide_eq_false_iff_not]
    omega
  dsimp only
  rw [h24, h0]
  simp

lemma find_normal (pred : ℤ × ℤ → Bool) (predx : ℤ → Bool) :
    ∀ (L : List (ℤ × ℤ)) (seen : List ℤ),
      (∀ e ∈ L, pred e = predx e.1) →
      normalKicksB L seen = true →
      (∀ dxv ∈ seen, predx dxv = false) →
      ∀ t, L.find? pred = some t → t.2 = 0 := by
  intro L
  induction L with
  | nil => intro seen _ _ _ t ht; simp [List.find?] at ht
  | cons e rest ih =>
      intro seen hfac hnorm hseen t ht
      rw [normalKicksB, Bool.and_eq_true] at hnorm
      by_cases hp : pred e = true
      · rw [List.find?_cons_of_pos _ hp] at ht
        cases ht
        rcases Bool.or_eq_true _ _ ▸ hnorm.1 with h0 | hmem
        · exact beq_iff_eq.mp h0
        · exfalso
          have hmem' : e.1 ∈ seen := by simpa using hmem
          have := hseen e.1 hmem'
          rw [hfac e (by simp)] at hp
          rw [this] at hp
          exact Bool.false_ne_true hp
      · rw [List.find?_cons_of_neg _ hp] at ht
        refine ih _ (fun x hx => hfac x (by simp [hx])) hnorm.2 ?_ t ht
        intro dxv hdx
        by_cases he0 : e.2 == 0
        · rw [if_pos he0] at hdx
          rcases List.mem_cons.mp hdx with h1 | h2
          · subst h1
            rw [← hfac e (by simp)]
            exact Bool.not_eq_true _ ▸ hp
          · exact hseen _ h2
        · rw [if_neg he0] at hdx
          exact hseen _ hdx

lemma simulateRotation_spec {D : PieceData} (hD : GoodData D) (g : Grid) (p : Piece)
    (dir : RotDir) (q : Piece) (h : simulateRotation D g p dir = some q) :
    collidesWithGrid D g q 0 0 0 = false ∧ p.y - 2 ≤ q.y ∧ (p.y ≤ -6 → q.y = p.y) ∧
    q.rotation < 4 ∧ q.type = p.type := by
  unfold simulateRotation at h
  by_cases h3 : p.type = (3 : Fin 7)
  · rw [if_pos h3] at h
    exact absurd h (by simp)
  rw [if_neg h3] at h
  dsimp only at h
  set T : List (ℤ × ℤ) :=
    (if p.type = D.blockI then (if dir = .R then D.rotIright else D.rotIleft)
     else (if dir = .R then D.rotJLTSZright else D.rotJLTSZleft))
      ⟨p.rotation % 4, Nat.mod_lt _ (by norm_num)⟩ with hT
  have hK : KicksOK T := by
    rw [hT]
    split_ifs <;>
      first
        | exact ((hD.2 _).1 : _)
        | exact ((hD.2 _).2.1 : _)
        | exact ((hD.2 _).2.2.1 : _)
        | exact ((hD.2 _).2.2.2 : _)
  set r : ℕ := (if dir = .R then 1 else 3 : ℕ) with hrdef
  cases hf : T.find? (fun t => !(collidesWithGrid D g p t.1 t.2 r)) with
  | none =>
      rw [hf] at h
      exact absurd h (by simp)
  | some t =>
      rw [hf] at h
      simp only [Option.some.injEq] at h
      subst h
      have hpred := List.find?_some hf
      have hmem := List.mem_of_find?_eq_some hf
      have hcf : collidesWithGrid D g p t.1 t.2 r = false := by
        simpa using hpred
      have hdy := hK.1 t hmem
      refine ⟨?_, ?_, ?_, ?_, rfl⟩
      · rw [collides_shift D g p ⟨p.type, p.x + t.1, p.y + t.2, (p.rotation + r) % 4⟩
          t.1 t.2 r rfl rfl rfl
          (by show ((p.rotation + r) % 4) % 4 = (p.rotation + r) % 4; omega)]
        exact hcf
      · show p.y - 2 ≤ p.y + t.2
        omega
      · intro hy
        have ht2 : t.2 = 0 := by
          refine find_normal _ (fun dxv => !(colOut D p dxv r)) T [] ?_ hK.2 (by simp) t hf
          intro e he
          have hbd := hK.1 e he
          rw [collides_high hD g p hy e.1 e.2 hbd.1 hbd.2 r]
        show p.y + t.2 = p.y
        omega
      · show (p.rotation + r) % 4 < 4
        omega

lemma successorMoves_spec {D : PieceData} (hD : GoodData D) (g : Grid) (p : Piece) :
    ∀ ap ∈ successorMoves D g p,
      collidesWithGrid D g ap.2 0 0 0 = false ∧ p.y - 2 ≤ ap.2.y ∧
      (p.y ≤ -6 → p.y ≤ ap.2.y) ∧ (ap.2.rotation = p.rotation ∨ ap.2.rotation < 4) := by
  intro ap hap
  unfold successorMoves at hap
  simp only [List.mem_append] at hap
  rcases hap with (((h | h) | h) | h) | h
  · cases hc : collidesWithGrid D g p (-1) 0 0 with
    | true => rw [hc] at h; simp at h
    | false =>
        rw [hc] at h
        simp only [Bool.not_false, if_true, List.mem_singleton] at h
        subst h
        refine ⟨?_, by show p.y - 2 ≤ p.y; omega, fun _ => by show p.y ≤ p.y; omega, Or.inl rfl⟩
        show collidesWithGrid D g ⟨p.type, p.x - 1, p.y, p.rotation⟩ 0 0 0 = false
        rw [collides_shift D g p ⟨p.type, p.x - 1, p.y, p.rotation⟩ (-1) 0 0 rfl
          (by show p.x - 1 = p.x + (-1); ring) (by show p.y = p.y + 0; ring)
          (by show p.rotation % 4 = (p.rotation + 0) % 4; omega)]
        exact hc
  · cases hc : collidesWithGrid D g p 1 0 0 with
    | true => rw [hc] at h; simp at h
    | false =>
        rw [hc] at h
        simp only [Bool.not_false, if_true, List.mem_singleton] at h
        subst h
        refine ⟨?_, by show p.y - 2 ≤ p.y; omega, fun _ => by show p.y ≤ p.y; omega, Or.inl rfl⟩
        show collidesWithGrid D g ⟨p.type, p.x + 1, p.y, p.rotation⟩ 0 0 0 = false
        rw [collides_shift D g p ⟨p.type, p.x + 1, p.y, p.rotation⟩ 1 0 0 rfl rfl
          (by show p.y = p.y + 0; ring)
          (by show p.rotation % 4 = (p.rotation + 0) % 4; omega)]
        exact hc
  · cases hc : collidesWithGrid D g p 0 1 0 with
    | true => rw [hc] at h; simp at h
    | false =>
        rw [hc] at h
        simp only [Bool.not_false, if_true, List.mem_singleton] at h
        subst h
        refine ⟨?_, by show p.y - 2 ≤ p.y + 1; omega, fun _ => by show p.y ≤ p.y + 1; omega,
          Or.inl rfl⟩
        show collidesWithGrid D g ⟨p.type, p.x, p.y + 1, p.rotation⟩ 0 0 0 = false
        rw [collides_shift D g p ⟨p.type, p.x, p.y + 1, p.rotation⟩ 0 1 0 rfl
          (by show p.x = p.x + 0; ring) rfl
          (by show p.rotation % 4 = (p.rotation + 0) % 4; omega)]
        exact hc
  · cases hr : simulateRotation D g p RotDir.R with
    | none => rw [hr] at h; simp at h
    | some q =>
        rw [hr] at h
        simp only [List.mem_singleton] at h
        subst h
        have hs := simulateRotation_spec hD g p RotDir.R q hr
        exact ⟨hs.1, hs.2.1, fun hy => le_of_eq (hs.2.2.1 hy).symm, Or.inr hs.2.2.2.1⟩
  · cases hr : simulateRotation D g p RotDir.L with
    | none => rw [hr] at h; simp at h
    | some q =>
        rw [hr] at h
        simp only [List.mem_singleton] at h
        subst h
        have hs := simulateRotation_spec hD g p RotDir.L q hr
        exact ⟨hs.1, hs.2.1, fun hy => le_of_eq (hs.2.2.1 hy).symm, Or.inr hs.2.2.2.1⟩

/-- Lower bound for the y coordinate of any pose the search can reach. -/
def yLow (p0 : Piece) : ℤ := min p0.y (-8)

lemma succ_key_box {D : PieceData} (hD : GoodData D) (g : Grid) (p0 p : Piece)
    (hpy : yLow p0 ≤ p.y) (hpr : p.rotation = p0.rotation ∨ p.rotation < 4) :
    ∀ ap ∈ successorMoves D g p,
      getPieceKey ap.2 ∈ keyBox p0 ∧ yLow p0 ≤ ap.2.y ∧
      (ap.2.rotation = p0.rotation ∨ ap.2.rotation < 4) := by
  intro ap hap
  have hs := successorMoves_spec hD g p ap hap
  have hb := cf_bounds hD g ap.2 hs.1
  have hmle : yLow p0 ≤ -8 := min_le_right _ _
  have hylo : yLow p0 ≤ ap.2.y := by
    by_cases hy : p.y ≤ -6
    · have := hs.2.2.1 hy
      omega
    · have := hs.2.1
      omega
  have hrot : ap.2.rotation = p0.rotation ∨ ap.2.rotation < 4 := by
    rcases hs.2.2.2 with h | h
    · rw [h]
      exact hpr
    · exact Or.inr h
  refine ⟨?_, hylo, hrot⟩
  unfold keyBox getPieceKey yLow at *
  simp only [Finset.mem_product, Finset.mem_Icc, Finset.mem_insert, Finset.mem_range]
  exact ⟨⟨hb.1, hb.2.1⟩, ⟨hylo, hb.2.2⟩, hrot⟩

lemma pushSuccessors_spec (path : List AiAction) :
    ∀ (l : List (AiAction × Piece)) (v : List (ℤ × ℤ × ℕ)) (ns : List Node),
      ∃ extra : List Node,
        pushSuccessors path l v ns =
          (v ++ extra.map (fun n => getPieceKey n.piece), ns ++ extra) ∧
        (extra.map (fun n => getPieceKey n.piece)).Nodup ∧
        ∀ n ∈ extra, (∃ ap ∈ l, n.piece = ap.2) ∧ getPieceKey n.piece ∉ v := by
  intro l
  induction l with
  | nil =>
      intro v ns
      exact ⟨[], by simp [pushSuccessors], by simp, by simp⟩
  | cons ap rest ih =>
      intro v ns
      by_cases hk : getPieceKey ap.2 ∈ v
      · have heq : pushSuccessors path (ap :: rest) v ns = pushSuccessors path rest v ns := by
          unfold pushSuccessors
          simp [List.foldl_cons, hk]
        rw [heq]
        obtain ⟨extra, h1, h2, h3⟩ := ih v ns
        refine ⟨extra, h1, h2, fun n hn => ?_⟩
        obtain ⟨⟨ap', hap', he⟩, hnv⟩ := h3 n hn
        exact ⟨⟨ap', by simp [hap'], he⟩, hnv⟩
      · have heq : pushSuccessors path (ap :: rest) v ns =
            pushSuccessors path rest (v ++ [getPieceKey ap.2])
              (ns ++ [{ piece := ap.2, path := path ++ [ap.1] }]) := by
          unfold pushSuccessors
          simp [List.foldl_cons, hk]
        rw [heq]
        obtain ⟨extra, h1, h2, h3⟩ :=
          ih (v ++ [getPieceKey ap.2]) (ns ++ [{ piece := ap.2, path := path ++ [ap.1] }])
        refine ⟨{ piece := ap.2, path := path ++ [ap.1] } :: extra, ?_, ?_, ?_⟩
        · rw [h1]
          simp
        · simp only [List.map_cons, List.nodup_cons]
          constructor
          · intro hmem
            obtain ⟨n, hn, hkey⟩ := List.mem_map.mp hmem
            exact (h3 n hn).2 (by simp [hkey])
          · exact h2
        · intro n hn
          rcases List.mem_cons.mp hn with h | h
          · subst h
            exact ⟨⟨ap, by simp, rfl⟩, hk⟩
          · obtain ⟨⟨ap', hap', he⟩, hnv⟩ := h3 n h
            refine ⟨⟨ap', by simp [hap'], he⟩, fun hmem => hnv (by simp [hmem])⟩

lemma filter_card_drop (U : Finset (ℤ × ℤ × ℕ)) :
    ∀ (ks : List (ℤ × ℤ × ℕ)) (v : List (ℤ × ℤ × ℕ)),
      ks.Nodup → (∀ k ∈ ks, k ∈ U) → (∀ k ∈ ks, k ∉ v) →
      (U.filter (fun k => k ∉ v ++ ks)).card + ks.length =
        (U.filter (fun k => k ∉ v)).card := by
  intro ks
  induction ks with
  | nil =>
      intro v _ _ _
      simp
  | cons k ks ih =>
      intro v hnd hU hv
      have hlists : v ++ k :: ks = (v ++ [k]) ++ ks := by simp
      have hone : (U.filter (fun x => x ∉ v ++ [k])).card + 1 =
          (U.filter (fun x => x ∉ v)).card := by
        have hk_mem : k ∈ U.filter (fun x => x ∉ v) :=
          Finset.mem_filter.mpr ⟨hU k (by simp), hv k (by simp)⟩
        have herase : U.filter (fun x => x ∉ v ++ [k]) =
            (U.filter (fun x => x ∉ v)).erase k := by
          ext x
          simp only [Finset.mem_filter, Finset.mem_erase, List.mem_append,
            List.mem_singleton]
          constructor
          · rintro ⟨hxU, hxv⟩
            push_neg at hxv
            exact ⟨hxv.2, hxU, hxv.1⟩
          · rintro ⟨hne, hxU, hxv⟩
            exact ⟨hxU, by push_neg; exact ⟨hxv, hne⟩⟩
        have hpos : 0 < (U.filter (fun x => x ∉ v)).card :=
          Finset.card_pos.mpr ⟨k, hk_mem⟩
        rw [herase, Finset.card_erase_of_mem hk_mem]
        omega
      have hih := ih (v ++ [k]) (List.nodup_cons.mp hnd).2
        (fun x hx => hU x (by simp [hx]))
        (fun x hx => by
          simp only [List.mem_append, List.mem_singleton]
          push_neg
          exact ⟨hv x (by simp [hx]), fun he => (List.nodup_cons.mp hnd).1 (he ▸ hx)⟩)
      rw [hlists]
      simp only [List.length_cons]
      omega

/-- Termination measure for the BFS: twice the unvisited portion of the
finite key box plus the queue length. -/
def bfsMeasure (p0 : Piece) (cfg : Config) : ℕ :=
  2 * ((keyBox p0).filter (fun k => k ∉ cfg.visited)).card + cfg.queue.length

/-- Queue invariant: every queued pose respects the reachable y lower bound
and has the start rotation or a reduced (< 4) one. -/
def queueOK (p0 : Piece) (cfg : Config) : Prop :=
  ∀ n ∈ cfg.queue, yLow p0 ≤ n.piece.y ∧
    (n.piece.rotation = p0.rotation ∨ n.piece.rotation < 4)

lemma bfsStep_cons_spec {D : PieceData} (hD : GoodData D) (g : Grid) (s : Strategy)
    (w : Weights) (dd : ℕ) (nx : Option (Fin 7)) (p0 : Piece)
    (node : Node) (rest : List Node) (v : List (ℤ × ℤ × ℕ))
    (b : Option (JsNum × List AiAction × Piece))
    (hq : queueOK p0 ⟨node :: rest, v, b⟩) :
    queueOK p0 (bfsStep D g s w dd nx ⟨node :: rest, v, b⟩) ∧
    (v.Nodup → (bfsStep D g s w dd nx ⟨node :: rest, v, b⟩).visited.Nodup) ∧
    bfsMeasure p0 (bfsStep D g s w dd nx ⟨node :: rest, v, b⟩) <
      bfsMeasure p0 (⟨node :: rest, v, b⟩ : Config) := by
  obtain ⟨extra, hPeq, hnodup, hmem⟩ :=
    pushSuccessors_spec node.path (successorMoves D g node.piece) v []
  have hqueue : (bfsStep D g s w dd nx ⟨node :: rest, v, b⟩).queue =
      rest ++ (pushSuccessors node.path (successorMoves D g node.piece) v []).2 := rfl
  have hvis : (bfsStep D g s w dd nx ⟨node :: rest, v, b⟩).visited =
      (pushSuccessors node.path (successorMoves D g node.piece) v []).1 := rfl
  rw [hPeq] at hqueue hvis
  simp only [List.nil_append] at hqueue
  have hhead := hq node (by simp)
  have hextra : ∀ n ∈ extra,
      getPieceKey n.piece ∈ keyBox p0 ∧ yLow p0 ≤ n.piece.y ∧
      (n.piece.rotation = p0.rotation ∨ n.piece.rotation < 4) := by
    intro n hn
    obtain ⟨⟨ap, hap, he⟩, -⟩ := hmem n hn
    have := succ_key_box hD g p0 node.piece hhead.1 hhead.2 ap hap
    rw [← he] at this
    exact this
  refine ⟨?_, ?_, ?_⟩
  · intro n hn
    rw [hqueue] at hn
    rcases List.mem_append.mp hn with h | h
    · exact hq n (by simp [h])
    · exact (hextra n h).2
  · intro hvnd
    rw [hvis]
    refine List.Nodup.append hvnd hnodup ?_
    intro a ha hamem
    obtain ⟨n, hn, hkey⟩ := List.mem_map.mp hamem
    exact (hmem n hn).2 (hkey ▸ ha)
  · unfold bfsMeasure
    rw [hqueue, hvis]
    have hdrop := filter_card_drop (keyBox p0) (extra.map (fun n => getPieceKey n.piece)) v
      hnodup
      (by
        intro k hk
        obtain ⟨n, hn, hkey⟩ := List.mem_map.mp hk
        exact hkey ▸ (hextra n hn).1)
      (by
        intro k hk
        obtain ⟨n, hn, hkey⟩ := List.mem_map.mp hk
        exact hkey ▸ (hmem n hn).2)
    simp only [List.length_append, List.length_cons, List.length_map] at *
    omega

lemma bfsIter_nil (D : PieceData) (g : Grid) (s : Strategy) (w : Weights) (dd : ℕ)
    (nx : Option (Fin 7)) :
    ∀ (n : ℕ) (cfg : Config), cfg.queue = [] → bfsIter D g s w dd nx n cfg = cfg := by
  intro n
  induction n with
  | zero => intro cfg _; rfl
  | succ m ih =>
      intro cfg h
      obtain ⟨q, v, b⟩ := cfg
      simp only at h
      subst h
      show bfsIter D g s w dd nx m (bfsStep D g s w dd nx ⟨[], v, b⟩) = _
      exact ih _ rfl

lemma bfsIter_empties {D : PieceData} (hD : GoodData D) (g : Grid) (s : Strategy)
    (w : Weights) (dd : ℕ) (nx : Option (Fin 7)) (p0 : Piece) :
    ∀ (n : ℕ) (cfg : Config), queueOK p0 cfg → cfg.visited.Nodup →
      bfsMeasure p0 cfg < n →
      (bfsIter D g s w dd nx n cfg).queue = [] ∧
      (bfsIter D g s w dd nx n cfg).visited.Nodup := by
  intro n
  induction n with
  | zero => intro cfg _ _ h; omega
  | succ m ih =>
      intro cfg hq hnd hm
      obtain ⟨q, v, b⟩ := cfg
      cases hqe : q with
      | nil =>
          subst hqe
          rw [bfsIter_nil D g s w dd nx (m + 1) ⟨[], v, b⟩ rfl]
          exact ⟨rfl, hnd⟩
      | cons node rest =>
          subst hqe
          have hstep := bfsStep_cons_spec hD g s w dd nx p0 node rest v b hq
          show (bfsIter D g s w dd nx m (bfsStep D g s w dd nx ⟨node :: rest, v, b⟩)).queue = [] ∧
            (bfsIter D g s w dd nx m (bfsStep D g s w dd nx ⟨node :: rest, v, b⟩)).visited.Nodup
          exact ih _ hstep.1 (hstep.2.1 hnd) (by omega)

/-- Claim C9: the breadth-first search of findBestMove terminates.  Every
enqueued pose is deduplicated by its (x, y, rotation) key (the visited list
stays duplicate-free), every pushed pose is collision-free and confined to
the finite key box, so the queue is provably empty within findBestMove's
own iteration budget bfsFuel — the call always completes and equals the
exhausted-search result.  The piece-shape and kick tables (src/data.js,
absent from src/) enter as an abstract parameter constrained by GoodData,
which the modelled SRS data satisfies. -/
theorem findBestMove_search_terminates (D : PieceData) (hD : GoodData D)
    (state : AiState) (strategy : Strategy) (w : Weights) (p0 : Piece)
    (hB : state.Block = some p0) :
    (bfsIter D state.grid (effectiveStrategy state.grid strategy) w state.iPieceDrought
      state.Next (bfsFuel p0) (initConfig p0)).queue = [] ∧
    (bfsIter D state.grid (effectiveStrategy state.grid strategy) w state.iPieceDrought
      state.Next (bfsFuel p0) (initConfig p0)).visited.Nodup ∧
    findBestMove D state strategy w =
      finishResult (bfsIter D state.grid (effectiveStrategy state.grid strategy) w
        state.iPieceDrought state.Next (bfsFuel p0) (initConfig p0)).best := by
  have hrun := bfsIter_empties hD state.grid (effectiveStrategy state.grid strategy) w
    state.iPieceDrought state.Next p0 (bfsFuel p0) (initConfig p0)
    (by
      intro n hn
      simp only [initConfig, List.mem_singleton] at hn
      subst hn
      exact ⟨min_le_left _ _, Or.inl rfl⟩)
    (by simp [initConfig])
    (by
      unfold bfsMeasure bfsFuel initConfig
      have := Finset.card_filter_le (keyBox p0) (fun k => k ∉ [getPieceKey p0])
      simp only [List.length_singleton]
      omega)
  refine ⟨hrun.1, hrun.2, ?_⟩
  unfold findBestMove
  rw [hB]

/-- A freshly spawned I piece on the empty board. -/
def spawnState : AiState :=
  { grid := emptyGrid, Block := some ⟨0, 3, 2, 0⟩, Next := some 1, iPieceDrought := 0 }

/-- Witness for claim C9: the modelled SRS data satisfies GoodData and the
search queue empties for a spawned piece on the empty board. -/
theorem findBestMove_search_terminates_witness :
    GoodData srsData ∧ spawnState.Block = some ⟨0, 3, 2, 0⟩ ∧
    (bfsIter srsData spawnState.grid (effectiveStrategy spawnState.grid .rightWell)
      BASE_WELL_WEIGHTS spawnState.iPieceDrought spawnState.Next
      (bfsFuel ⟨0, 3, 2, 0⟩) (initConfig ⟨0, 3, 2, 0⟩)).queue = [] :=
  ⟨by decide, rfl,
    (findBestMove_search_terminates srsData (by decide) spawnState .rightWell
      BASE_WELL_WEIGHTS ⟨0, 3, 2, 0⟩ rfl).1⟩
